import Mathlib

/-!
Verification of the KantinYuk financial dashboard (src/App.py).

The program is embedded shallowly: amounts are rationals, the uploaded
table is a list of transaction records, and the pandas operations of
App.py (boolean-mask filters, `abs`, `groupby(...).sum()`, `head`) are
translated into the corresponding list operations. The external
completion service of the chat and insight sections is modelled as an
argument mapping a request message list to success or failure, which is
how the try/except around `client.chat.completions.create` sees it.
-/

namespace KantinYuk

/-- A row of the uploaded ledger: the `Category` and `Amount` columns
(App.py line 49). A positive amount is income, a negative one expense. -/
structure TransactionRecord where
  category : String
  amount : ℚ
deriving DecidableEq

/-- The parsed upload: the dataframe `df` restricted to the two columns
the program reads. -/
abbrev Ledger := List TransactionRecord

/-- Python's `abs` on a rational, written so that it evaluates by
kernel reduction; equal to Mathlib's `|·|` by `ratAbs_eq_abs`. -/
def ratAbs (x : ℚ) : ℚ := if x < 0 then -x else x

lemma ratAbs_eq_abs (x : ℚ) : ratAbs x = |x| := by
  unfold ratAbs
  by_cases h : x < 0
  · rw [if_pos h, abs_of_neg h]
  · rw [if_neg h, abs_of_nonneg (le_of_not_lt h)]

lemma ratAbs_of_nonneg {x : ℚ} (h : 0 ≤ x) : ratAbs x = x := by
  rw [ratAbs_eq_abs, abs_of_nonneg h]

/-- App.py line 59: `total_income = df[df["Amount"] > 0]["Amount"].sum()`. -/
def total_income (df : Ledger) : ℚ :=
  ((df.filter fun r => decide (0 < r.amount)).map fun r => r.amount).sum

/-- App.py line 60: `total_expense = abs(df[df["Amount"] < 0]["Amount"].sum())`. -/
def total_expense (df : Ledger) : ℚ :=
  ratAbs ((df.filter fun r => decide (r.amount < 0)).map fun r => r.amount).sum

/-- App.py line 61: `balance = total_income - total_expense`. -/
def balance (df : Ledger) : ℚ :=
  total_income df - total_expense df

/-- App.py lines 73-74: `cat_df = df[df["Amount"] < 0]` with the extra
column `cat_df["Expense"] = abs(cat_df["Amount"])`; kept as
(category, expense) pairs. -/
def cat_df (df : Ledger) : List (String × ℚ) :=
  (df.filter fun r => decide (r.amount < 0)).map fun r => (r.category, ratAbs r.amount)

/-- The distinct group keys of a `groupby`, in first-seen order (the key
order of the pandas result is irrelevant to every property below). -/
def dedupFirst : List String → List String
  | [] => []
  | c :: rest => c :: ((dedupFirst rest).filter fun d => decide (d ≠ c))

/-- The group keys of `cat_df.groupby("Category")`: the distinct
categories having at least one negative-amount record. -/
def aggKeys (df : Ledger) : List String :=
  dedupFirst ((cat_df df).map Prod.fst)

/-- The `groupby("Category")["Expense"].sum()` value for one key. -/
def groupSum (df : Ledger) (c : String) : ℚ :=
  (((cat_df df).filter fun p => decide (p.1 = c)).map Prod.snd).sum

/-- App.py line 83: `base = abs(cat_df.groupby("Category")["Expense"].sum())`,
as an association list from category to summed expense magnitude. -/
def categoryAggregate (df : Ledger) : List (String × ℚ) :=
  (aggKeys df).map fun c => (c, ratAbs (groupSum df c))

/-- The worked example ledger of the spec:
`[{A,100},{B,-40},{B,-10},{C,-50}]`. -/
def exLedger : Ledger :=
  [⟨"A", 100⟩, ⟨"B", -40⟩, ⟨"B", -10⟩, ⟨"C", -50⟩]

/-! ### Helper lemmas about the aggregation arithmetic -/

lemma sum_map_abs_of_neg :
    ∀ l : List ℚ, (∀ x ∈ l, x < 0) → (l.map fun x => |x|).sum = -l.sum := by
  intro l
  induction l with
  | nil => intro _; simp
  | cons a l ih =>
    intro h
    have ha : a < 0 := h a (List.mem_cons_self a l)
    have hl : ∀ x ∈ l, x < 0 := fun x hx => h x (List.mem_cons_of_mem a hx)
    simp [abs_of_neg ha, ih hl, neg_add, add_comm]

lemma list_sum_nonpos : ∀ l : List ℚ, (∀ x ∈ l, x ≤ 0) → l.sum ≤ 0 := by
  intro l
  induction l with
  | nil => intro _; simp
  | cons a l ih =>
    intro h
    have ha : a ≤ 0 := h a (List.mem_cons_self a l)
    have hl : l.sum ≤ 0 := ih fun x hx => h x (List.mem_cons_of_mem a hx)
    simpa using add_nonpos ha hl

lemma total_expense_eq_sum_cat_df (df : Ledger) :
    total_expense df = ((cat_df df).map Prod.snd).sum := by
  unfold total_expense cat_df
  simp only [ratAbs_eq_abs]
  have hneg : ∀ x ∈ (df.filter fun r => decide (r.amount < 0)).map fun r => r.amount,
      x < 0 := by
    intro x hx
    rcases List.mem_map.mp hx with ⟨r, hr, rfl⟩
    exact of_decide_eq_true (List.mem_filter.mp hr).2
  have hsum : ((df.filter fun r => decide (r.amount < 0)).map fun r => r.amount).sum ≤ 0 :=
    list_sum_nonpos _ fun x hx => le_of_lt (hneg x hx)
  rw [abs_of_nonpos hsum, ← sum_map_abs_of_neg _ hneg]
  simp only [List.map_map]
  rfl

lemma cat_df_snd_pos (df : Ledger) : ∀ p ∈ cat_df df, 0 < p.2 := by
  intro p hp
  rcases List.mem_map.mp hp with ⟨r, hr, rfl⟩
  have : r.amount < 0 := of_decide_eq_true (List.mem_filter.mp hr).2
  simpa [ratAbs_eq_abs] using abs_pos.mpr (ne_of_lt this)

lemma groupSum_nonneg (df : Ledger) (c : String) : 0 ≤ groupSum df c := by
  apply List.sum_nonneg
  intro x hx
  rcases List.mem_map.mp hx with ⟨p, hp, rfl⟩
  exact le_of_lt (cat_df_snd_pos df p (List.mem_of_mem_filter hp))

lemma mem_dedupFirst (a : String) : ∀ l : List String, a ∈ dedupFirst l ↔ a ∈ l := by
  intro l
  induction l with
  | nil => simp [dedupFirst]
  | cons c rest ih =>
    by_cases h : a = c
    · simp [dedupFirst, h]
    · simp [dedupFirst, h, ih]

lemma nodup_dedupFirst : ∀ l : List String, (dedupFirst l).Nodup := by
  intro l
  induction l with
  | nil => simp [dedupFirst]
  | cons c rest ih =>
    refine List.Nodup.cons ?_ (List.Nodup.filter _ ih)
    intro hc
    have := of_decide_eq_true (List.mem_filter.mp hc).2
    exact this rfl

lemma sum_filter_key_split (l : List (String × ℚ)) (c : String) :
    ((l.filter fun p => decide (p.1 = c)).map Prod.snd).sum
      + ((l.filter fun p => decide (p.1 ≠ c)).map Prod.snd).sum
    = (l.map Prod.snd).sum := by
  induction l with
  | nil => simp
  | cons p l ih =>
    by_cases h : p.1 = c
    · simp [List.filter_cons, h] at ih ⊢
      linarith [ih]
    · simp [List.filter_cons, h] at ih ⊢
      linarith [ih]

lemma sum_groupSums_over_keys :
    ∀ (ks : List String) (l : List (String × ℚ)), ks.Nodup →
      (∀ p ∈ l, p.1 ∈ ks) →
      (ks.map fun c => ((l.filter fun p => decide (p.1 = c)).map Prod.snd).sum).sum
        = (l.map Prod.snd).sum := by
  intro ks
  induction ks with
  | nil =>
    intro l _ hcov
    have hl : l = [] := by
      cases l with
      | nil => rfl
      | cons p l => exact absurd (hcov p (List.mem_cons_self p l)) (List.not_mem_nil p.1)
    simp [hl]
  | cons c ks ih =>
    intro l hnd hcov
    have hc_notin : c ∉ ks := (List.nodup_cons.mp hnd).1
    have hnd' : ks.Nodup := (List.nodup_cons.mp hnd).2
    set l' := l.filter fun p => decide (p.1 ≠ c) with hl'
    have hcov' : ∀ p ∈ l', p.1 ∈ ks := by
      intro p hp
      have hmem : p ∈ l := List.mem_of_mem_filter hp
      have hne : p.1 ≠ c := of_decide_eq_true (List.mem_filter.mp hp).2
      rcases List.mem_cons.mp (hcov p hmem) with h | h
      · exact absurd h hne
      · exact h
    have hshift : ∀ d ∈ ks,
        ((l.filter fun p => decide (p.1 = d)).map Prod.snd).sum
          = ((l'.filter fun p => decide (p.1 = d)).map Prod.snd).sum := by
      intro d hd
      have hdc : d ≠ c := fun h => hc_notin (h ▸ hd)
      have : l'.filter (fun p => decide (p.1 = d)) = l.filter fun p => decide (p.1 = d) := by
        rw [hl', List.filter_filter]
        apply List.filter_congr
        intro p _
        by_cases hp : p.1 = d
        · simp [hp, hdc]
        · simp [hp]
      rw [this]
    calc (((c :: ks)).map fun d =>
            ((l.filter fun p => decide (p.1 = d)).map Prod.snd).sum).sum
        = ((l.filter fun p => decide (p.1 = c)).map Prod.snd).sum
            + (ks.map fun d =>
                ((l.filter fun p => decide (p.1 = d)).map Prod.snd).sum).sum := by
          simp
      _ = ((l.filter fun p => decide (p.1 = c)).map Prod.snd).sum
            + (ks.map fun d =>
                ((l'.filter fun p => decide (p.1 = d)).map Prod.snd).sum).sum := by
          rw [List.map_congr_left hshift]
      _ = ((l.filter fun p => decide (p.1 = c)).map Prod.snd).sum
            + (l'.map Prod.snd).sum := by rw [ih l' hnd' hcov']
      _ = (l.map Prod.snd).sum := sum_filter_key_split l c

lemma mem_aggKeys_iff (df : Ledger) (c : String) :
    c ∈ aggKeys df ↔ ∃ r ∈ df, r.category = c ∧ r.amount < 0 := by
  unfold aggKeys
  rw [mem_dedupFirst]
  constructor
  · intro h
    rcases List.mem_map.mp h with ⟨p, hp, rfl⟩
    rcases List.mem_map.mp hp with ⟨r, hr, rfl⟩
    exact ⟨r, List.mem_of_mem_filter hr, rfl,
      of_decide_eq_true (List.mem_filter.mp hr).2⟩
  · rintro ⟨r, hr, rfl, hneg⟩
    exact List.mem_map.mpr ⟨(r.category, ratAbs r.amount),
      List.mem_map.mpr ⟨r, List.mem_filter.mpr ⟨hr, decide_eq_true hneg⟩, rfl⟩, rfl⟩

lemma groupSum_pos_of_mem (df : Ledger) (c : String) (hc : c ∈ aggKeys df) :
    0 < groupSum df c := by
  rcases (mem_aggKeys_iff df c).mp hc with ⟨r, hr, hcat, hneg⟩
  have hmem : (r.category, ratAbs r.amount) ∈
      (cat_df df).filter fun p => decide (p.1 = c) := by
    refine List.mem_filter.mpr ⟨?_, by simp [hcat]⟩
    exact List.mem_map.mpr ⟨r, List.mem_filter.mpr ⟨hr, decide_eq_true hneg⟩, rfl⟩
  apply List.sum_pos
  · intro x hx
    rcases List.mem_map.mp hx with ⟨p, hp, rfl⟩
    exact cat_df_snd_pos df p (List.mem_of_mem_filter hp)
  · intro hnil
    rw [List.map_eq_nil_iff] at hnil
    rw [hnil] at hmem
    exact List.not_mem_nil _ hmem

lemma mem_categoryAggregate_iff (df : Ledger) (c : String) (b : ℚ) :
    (c, b) ∈ categoryAggregate df ↔ c ∈ aggKeys df ∧ b = groupSum df c := by
  unfold categoryAggregate
  constructor
  · intro h
    rcases List.mem_map.mp h with ⟨d, hd, hpair⟩
    have hcd : d = c := congrArg Prod.fst hpair
    subst hcd
    refine ⟨hd, ?_⟩
    have hb : ratAbs (groupSum df d) = b := congrArg Prod.snd hpair
    rw [← hb, ratAbs_of_nonneg (groupSum_nonneg df d)]
  · rintro ⟨hc, rfl⟩
    exact List.mem_map.mpr ⟨c, hc, by rw [ratAbs_of_nonneg (groupSum_nonneg df c)]⟩

/-- The Category Aggregator as the spec words it: restrict to records of
category `c` with amount < 0, take absolute values, sum. -/
def specExpenseSum (df : Ledger) (c : String) : ℚ :=
  ((df.filter fun r => decide (r.category = c ∧ r.amount < 0)).map fun r => ratAbs r.amount).sum

lemma groupSum_eq_specExpenseSum (df : Ledger) (c : String) :
    groupSum df c = specExpenseSum df c := by
  unfold groupSum specExpenseSum cat_df
  induction df with
  | nil => simp
  | cons r rest ih =>
    by_cases hneg : r.amount < 0
    · by_cases hcat : r.category = c
      · simp [List.filter_cons, hneg, hcat, List.map_cons, List.sum_cons, ih]
      · simp [List.filter_cons, hneg, hcat, ih]
    · simp [List.filter_cons, hneg, ih]

lemma filter_pos_after_filter_nonzero (df : Ledger) :
    ((df.filter fun r => decide (r.amount ≠ 0)).filter fun r => decide (0 < r.amount))
      = df.filter fun r => decide (0 < r.amount) := by
  rw [List.filter_filter]
  apply List.filter_congr
  intro r _
  by_cases h : 0 < r.amount
  · simp [h, ne_of_gt h]
  · simp [h]

lemma filter_neg_after_filter_nonzero (df : Ledger) :
    ((df.filter fun r => decide (r.amount ≠ 0)).filter fun r => decide (r.amount < 0))
      = df.filter fun r => decide (r.amount < 0) := by
  rw [List.filter_filter]
  apply List.filter_congr
  intro r _
  by_cases h : r.amount < 0
  · simp [h, ne_of_lt h]
  · simp [h]

/-! ### The claims about the summary and the aggregator -/

/-- Claim C1: for every ledger the Summary Calculator returns
`total_income` = sum of the amounts strictly above 0, `total_expense` =
absolute value of the sum of the amounts strictly below 0, and
`balance = total_income - total_expense`; zero-amount records contribute
to neither total, both totals are non-negative, and the empty ledger
yields the all-zero summary. -/
theorem summary_calculator_spec (df : Ledger) :
    total_income df = ((df.filter fun r => decide (0 < r.amount)).map fun r => r.amount).sum ∧
    total_expense df = |((df.filter fun r => decide (r.amount < 0)).map fun r => r.amount).sum| ∧
    balance df = total_income df - total_expense df ∧
    0 ≤ total_income df ∧ 0 ≤ total_expense df ∧
    total_income (df.filter fun r => decide (r.amount ≠ 0)) = total_income df ∧
    total_expense (df.filter fun r => decide (r.amount ≠ 0)) = total_expense df ∧
    total_income ([] : Ledger) = 0 ∧ total_expense ([] : Ledger) = 0 ∧
    balance ([] : Ledger) = 0 := by
  refine ⟨rfl, ratAbs_eq_abs _, rfl, ?_, ?_, ?_, ?_, rfl, by decide,
    by simp [balance, total_income, total_expense, ratAbs]⟩
  · apply List.sum_nonneg
    intro x hx
    rcases List.mem_map.mp hx with ⟨r, hr, rfl⟩
    exact le_of_lt (of_decide_eq_true (List.mem_filter.mp hr).2)
  · rw [show total_expense df = |_| from ratAbs_eq_abs _]
    exact abs_nonneg _
  · unfold total_income
    rw [filter_pos_after_filter_nonzero]
  · unfold total_expense
    rw [filter_neg_after_filter_nonzero]

/-- Claim C2: for every ledger, the sum of the CategoryAggregate values
equals the Summary Calculator's `total_expense`. -/
theorem aggregate_sums_to_total_expense (df : Ledger) :
    ((categoryAggregate df).map Prod.snd).sum = total_expense df := by
  unfold categoryAggregate
  rw [List.map_map]
  have h1 : ((aggKeys df).map (Prod.snd ∘ fun c => (c, ratAbs (groupSum df c)))).sum
      = ((aggKeys df).map fun c => groupSum df c).sum := by
    apply congrArg
    apply List.map_congr_left
    intro c _
    exact ratAbs_of_nonneg (groupSum_nonneg df c)
  rw [h1]
  have h2 : ((aggKeys df).map fun c => groupSum df c).sum
      = ((cat_df df).map Prod.snd).sum := by
    apply sum_groupSums_over_keys (aggKeys df) (cat_df df) (nodup_dedupFirst _)
    intro p hp
    unfold aggKeys
    rw [mem_dedupFirst]
    exact List.mem_map.mpr ⟨p, hp, rfl⟩
  rw [h2, total_expense_eq_sum_cat_df]

/-- Claim C7: the Category Aggregator maps exactly the categories having
at least one negative-amount record to the sum of the absolute values of
their negative amounts (categories with no expense record are absent),
and on the worked example `[{A,100},{B,-40},{B,-10},{C,-50}]` it returns
`{B: 50, C: 50}` while the summary is income 100, expense 100,
balance 0. -/
theorem category_aggregator_spec :
    (∀ (df : Ledger) (c : String) (b : ℚ),
        (c, b) ∈ categoryAggregate df ↔
          (∃ r ∈ df, r.category = c ∧ r.amount < 0) ∧ b = specExpenseSum df c) ∧
    categoryAggregate exLedger = [("B", 50), ("C", 50)] ∧
    total_income exLedger = 100 ∧ total_expense exLedger = 100 ∧
    balance exLedger = 0 := by
  refine ⟨?_,
    by simp [categoryAggregate, aggKeys, groupSum, cat_df, dedupFirst, exLedger, ratAbs,
      List.filter_cons] <;> norm_num,
    by simp [total_income, exLedger, List.filter_cons] <;> norm_num,
    by simp [total_expense, exLedger, ratAbs, List.filter_cons] <;> norm_num,
    by simp [balance, total_income, total_expense, exLedger, ratAbs,
      List.filter_cons] <;> norm_num⟩
  intro df c b
  rw [mem_categoryAggregate_iff, mem_aggKeys_iff, groupSum_eq_specExpenseSum]

theorem category_aggregator_spec_witness :
    ("B", (50:ℚ)) ∈ categoryAggregate exLedger :=
  (category_aggregator_spec.1 exLedger "B" 50).mpr
    ⟨⟨⟨"B", -40⟩, by simp [exLedger], rfl, by norm_num⟩,
      by simp [specExpenseSum, exLedger, ratAbs, List.filter_cons] <;> norm_num⟩

/-- Claim C10: every value stored in the CategoryAggregate (hence every
forecast base) is strictly positive: each group sum adds the absolute
values of one or more strictly negative amounts, so no category is ever
mapped to 0. -/
theorem aggregate_values_pos (df : Ledger) (c : String) (b : ℚ)
    (h : (c, b) ∈ categoryAggregate df) : 0 < b := by
  rcases (mem_categoryAggregate_iff df c b).mp h with ⟨hc, rfl⟩
  exact groupSum_pos_of_mem df c hc

theorem aggregate_values_pos_witness : (0:ℚ) < 50 :=
  aggregate_values_pos exLedger "B" 50
    (by simp [categoryAggregate, aggKeys, groupSum, cat_df, dedupFirst, exLedger, ratAbs,
      List.filter_cons] <;> norm_num)

/-! ### The Scenario Forecaster and the Insight Requester preview -/

/-- A row of the forecast table built at App.py lines 83-88. -/
structure ForecastRow where
  category : String
  base : ℚ
  optimistic : ℚ
  normal : ℚ
  worst_case : ℚ
deriving DecidableEq

/-- One row of App.py lines 86-88: each scenario value is the base value
times the row's draw from the corresponding `np.random.uniform` vector. -/
def mkForecastRow (c : String) (b r1 r2 r3 : ℚ) : ForecastRow :=
  ⟨c, b, b * r1, b * r2, b * r3⟩

/-- App.py lines 83-88: the forecast table, one row per category of the
aggregate, with `d1 i`, `d2 i`, `d3 i` the i-th entries of the three
uniform draw vectors. -/
def scenarioForecast (agg : List (String × ℚ)) (d1 d2 d3 : ℕ → ℚ) : List ForecastRow :=
  (agg.zip (List.range agg.length)).map fun p =>
    mkForecastRow p.1.1 p.1.2 (d1 p.2) (d2 p.2) (d3 p.2)

/-- App.py line 108: `df_preview = base.head(20)` — the forecast rows
serialized into the insight prompt's user message. -/
def df_preview (base : List ForecastRow) : List ForecastRow :=
  base.take 20

/-- Claim C3: every row the Scenario Forecaster produces from a ledger's
aggregate, with draws r1 ∈ [0.8, 1.0), r2 ∈ [1.0, 1.2), r3 ∈ [1.2, 1.5),
satisfies 0.8·base ≤ optimistic < 1.0·base, 1.0·base ≤ normal < 1.2·base
and 1.2·base ≤ worst_case < 1.5·base. -/
theorem forecast_row_bounds (df : Ledger) (d1 d2 d3 : ℕ → ℚ)
    (h1 : ∀ i, 4/5 ≤ d1 i ∧ d1 i < 1)
    (h2 : ∀ i, 1 ≤ d2 i ∧ d2 i < 6/5)
    (h3 : ∀ i, 6/5 ≤ d3 i ∧ d3 i < 3/2)
    (row : ForecastRow)
    (hrow : row ∈ scenarioForecast (categoryAggregate df) d1 d2 d3) :
    4/5 * row.base ≤ row.optimistic ∧ row.optimistic < 1 * row.base ∧
    1 * row.base ≤ row.normal ∧ row.normal < 6/5 * row.base ∧
    6/5 * row.base ≤ row.worst_case ∧ row.worst_case < 3/2 * row.base := by
  rcases List.mem_map.mp hrow with ⟨⟨⟨c, b⟩, i⟩, hp, rfl⟩
  have hmem : (c, b) ∈ categoryAggregate df := (List.of_mem_zip hp).1
  have hb : 0 < b := by
    rcases (mem_categoryAggregate_iff df c b).mp hmem with ⟨hc, rfl⟩
    exact groupSum_pos_of_mem df c hc
  have hbnn : (0:ℚ) ≤ b := le_of_lt hb
  refine ⟨?_, ?_, ?_, ?_, ?_, ?_⟩ <;>
    simp only [mkForecastRow]
  · have := mul_le_mul_of_nonneg_left (h1 i).1 hbnn
    linarith
  · have := mul_lt_mul_of_pos_left (h1 i).2 hb
    linarith
  · have := mul_le_mul_of_nonneg_left (h2 i).1 hbnn
    linarith
  · have := mul_lt_mul_of_pos_left (h2 i).2 hb
    linarith
  · have := mul_le_mul_of_nonneg_left (h3 i).1 hbnn
    linarith
  · have := mul_lt_mul_of_pos_left (h3 i).2 hb
    linarith

theorem forecast_row_bounds_witness :
    (mkForecastRow "B" 50 (9/10) (11/10) (13/10)).optimistic
      < 1 * (mkForecastRow "B" 50 (9/10) (11/10) (13/10)).base :=
  (forecast_row_bounds exLedger (fun _ => 9/10) (fun _ => 11/10) (fun _ => 13/10)
    (fun _ => by norm_num) (fun _ => by norm_num) (fun _ => by norm_num)
    (mkForecastRow "B" 50 (9/10) (11/10) (13/10))
    (by simp [scenarioForecast, categoryAggregate, aggKeys, groupSum, cat_df, dedupFirst,
      exLedger, ratAbs, List.filter_cons, List.range_succ] <;> norm_num)).2.1

/-- Claim C8: the Insight Requester serializes exactly the first
min(n, 20) forecast rows, taken from the front in order. -/
theorem insight_preview_first_twenty (base : List ForecastRow) :
    (df_preview base).length = min base.length 20 ∧
    df_preview base ++ base.drop 20 = base := by
  constructor
  · simp [df_preview]
    omega
  · exact List.take_append_drop 20 base

/-! ### The Ledger Loader's schema check and the per-upload pipeline -/

/-- The error of App.py lines 50-52: a required column is missing. -/
inductive SchemaError where
  | missingColumns
deriving DecidableEq

/-- An uploaded spreadsheet: its column names and the parsed rows of the
two columns the program reads. -/
structure UploadedTable where
  columns : List String
  rows : Ledger

/-- Everything the dashboard computes and renders for one upload,
downstream of the schema check: the three summary metrics, the category
aggregate, the forecast table and the insight-prompt preview rows. -/
structure Outputs where
  income : ℚ
  expense : ℚ
  bal : ℚ
  aggregate : List (String × ℚ)
  forecast : List ForecastRow
  insightRows : List ForecastRow

/-- App.py line 49: `required_cols = ["Category", "Amount"]`. -/
def required_cols : List String := ["Category", "Amount"]

/-- App.py lines 44-108, the per-upload pipeline: the schema check of
lines 50-52 (`st.stop()`) runs first and aborts before any downstream
computation or rendering; otherwise every downstream artifact is
produced. -/
def processUpload (t : UploadedTable) (d1 d2 d3 : ℕ → ℚ) : Except SchemaError Outputs :=
  if required_cols.all fun c => decide (c ∈ t.columns) then
    let agg := categoryAggregate t.rows
    let fc := scenarioForecast agg d1 d2 d3
    Except.ok ⟨total_income t.rows, total_expense t.rows, balance t.rows, agg, fc,
      df_preview fc⟩
  else Except.error SchemaError.missingColumns

/-- Claim C6: an upload lacking the exact column name `Category` or
`Amount` fails with a SchemaError and produces no downstream output at
all — no summary, aggregate, forecast or insight preview. -/
theorem schema_error_aborts (t : UploadedTable) (d1 d2 d3 : ℕ → ℚ)
    (hmiss : "Category" ∉ t.columns ∨ "Amount" ∉ t.columns) :
    processUpload t d1 d2 d3 = Except.error SchemaError.missingColumns := by
  unfold processUpload
  have hfalse : (required_cols.all fun c => decide (c ∈ t.columns)) = false := by
    rcases hmiss with h | h <;> simp [required_cols, h]
  rw [hfalse]
  simp

theorem schema_error_aborts_witness :
    processUpload ⟨["Amount", "Tanggal"], []⟩ (fun _ => 1) (fun _ => 1) (fun _ => 1)
      = Except.error SchemaError.missingColumns :=
  schema_error_aborts ⟨["Amount", "Tanggal"], []⟩ (fun _ => 1) (fun _ => 1) (fun _ => 1)
    (Or.inl (by decide))

/-! ### The Conversation Session -/

/-- One `{role, content}` entry of the completion request or the chat
history. -/
structure ChatMessage where
  role : String
  content : String
deriving DecidableEq

/-- `st.session_state.chat_history`: the ordered conversation log. -/
abbrev ConversationHistory := List ChatMessage

/-- The fixed system persona of App.py lines 159-162. -/
def chatSystemMessage : ChatMessage :=
  ⟨"system",
   "Kamu adalah Kantingo AI. Jawab pertanyaan terkait budgeting, cashflow, pengeluaran, serta strategi penghematan."⟩

/-- App.py lines 158-165: the message list of the chat completion
request — the system persona, the whole existing history in order, then
the new user message. -/
def requestMessages (history : ConversationHistory) (user_msg : String) :
    List ChatMessage :=
  chatSystemMessage :: (history ++ [⟨"user", user_msg⟩])

/-- App.py lines 155-174: one press of the send button with a non-empty
message. The external service maps the request message list to either a
response text or a raised error; the two history appends of lines
170-171 run only after the call returned. -/
def send (service : List ChatMessage → Except String String)
    (history : ConversationHistory) (user_msg : String) :
    ConversationHistory × Except String String :=
  match service (requestMessages history user_msg) with
  | Except.ok ai_answer =>
      (history ++ [⟨"user", user_msg⟩, ⟨"assistant", ai_answer⟩], Except.ok ai_answer)
  | Except.error e => (history, Except.error e)

/-- App.py lines 151-152: the reset button clears the history. -/
def resetHistory : ConversationHistory := []

/-- The histories reachable in a session (App.py lines 142-174): the
initial empty history, a reset, or a send with a non-empty message whose
outcome is whatever the service returned. -/
inductive Reachable : ConversationHistory → Prop where
  | init : Reachable []
  | reset (h : ConversationHistory) : Reachable h → Reachable resetHistory
  | send_step (h : ConversationHistory)
      (service : List ChatMessage → Except String String)
      (m : String) (hm : m ≠ "") :
      Reachable h → Reachable (send service h m).1

/-- Claim C4: when the completion request raises, `send` leaves the
history exactly as it was, and the error is what is surfaced. -/
theorem failed_send_preserves_history (history : ConversationHistory)
    (m : String) (hm : m ≠ "")
    (service : List ChatMessage → Except String String) (e : String)
    (hfail : service (requestMessages history m) = Except.error e) :
    (send service history m).1 = history ∧
    (send service history m).2 = Except.error e := by
  unfold send
  rw [hfail]
  exact ⟨rfl, rfl⟩

theorem failed_send_preserves_history_witness :
    (send (fun _ => Except.error "AI Error") [] "halo").1 = [] ∧
    (send (fun _ => Except.error "AI Error") [] "halo").2
      = Except.error "AI Error" :=
  failed_send_preserves_history [] "halo" (by decide)
    (fun _ => Except.error "AI Error") "AI Error" rfl

/-- Claim C5: the request is the fixed system persona, then the whole
existing history in order, then the new user message; on success the new
history is the old one with the user message and the assistant reply
appended, in that order. -/
theorem send_request_and_success_append (history : ConversationHistory)
    (m : String) (hm : m ≠ "")
    (service : List ChatMessage → Except String String) (a : String)
    (hok : service (requestMessages history m) = Except.ok a) :
    requestMessages history m
      = chatSystemMessage :: (history ++ [⟨"user", m⟩]) ∧
    (send service history m).1
      = history ++ [⟨"user", m⟩, ⟨"assistant", a⟩] := by
  refine ⟨rfl, ?_⟩
  unfold send
  rw [hok]

theorem send_request_and_success_append_witness :
    requestMessages [] "halo"
      = chatSystemMessage :: ([] ++ [⟨"user", "halo"⟩]) ∧
    (send (fun _ => Except.ok "jawaban") [] "halo").1
      = [] ++ [⟨"user", "halo"⟩, ⟨"assistant", "jawaban"⟩] :=
  send_request_and_success_append [] "halo" (by decide)
    (fun _ => Except.ok "jawaban") "jawaban" rfl

/-- The implicit well-formedness of the chat transcript: even length,
strictly alternating user-then-assistant pairs. -/
def alternatingUA : ConversationHistory → Bool
  | [] => true
  | [_] => false
  | u :: a :: rest =>
      decide (u.role = "user") && decide (a.role = "assistant") && alternatingUA rest

lemma alternatingUA_append :
    ∀ (h : ConversationHistory) (m a : String), alternatingUA h = true →
      alternatingUA (h ++ [⟨"user", m⟩, ⟨"assistant", a⟩]) = true
  | [], m, a, _ => by simp [alternatingUA]
  | [x], _, _, hx => by simp [alternatingUA] at hx
  | x :: y :: rest, m, a, hxy => by
      simp only [alternatingUA, Bool.and_eq_true, decide_eq_true_eq] at hxy
      simp only [List.cons_append, alternatingUA, Bool.and_eq_true, decide_eq_true_eq]
      exact ⟨⟨hxy.1.1, hxy.1.2⟩, alternatingUA_append rest m a hxy.2⟩

lemma alternatingUA_even_length :
    ∀ h : ConversationHistory, alternatingUA h = true → Even h.length
  | [], _ => ⟨0, rfl⟩
  | [x], hx => by simp [alternatingUA] at hx
  | x :: y :: rest, hxy => by
      simp only [alternatingUA, Bool.and_eq_true] at hxy
      rcases alternatingUA_even_length rest hxy.2 with ⟨k, hk⟩
      refine ⟨k + 1, ?_⟩
      simp only [List.length_cons, hk]
      omega

/-- Claim C9: every reachable chat history has even length and strictly
alternates roles, user then assistant: the initial history is empty,
reset empties it, a failed send changes nothing and a successful send
appends one user entry followed by one assistant entry. -/
theorem chat_history_invariant (h : ConversationHistory) (hr : Reachable h) :
    alternatingUA h = true ∧ Even h.length := by
  suffices halt : alternatingUA h = true from
    ⟨halt, alternatingUA_even_length h halt⟩
  induction hr with
  | init => rfl
  | reset g hg ih => rfl
  | send_step g service m hm hg ih =>
      cases hsrv : service (requestMessages g m) with
      | ok a =>
          have hstep : (send service g m).1 = g ++ [⟨"user", m⟩, ⟨"assistant", a⟩] := by
            unfold send
            rw [hsrv]
          rw [hstep]
          exact alternatingUA_append g m a ih
      | error e =>
          have hstep : (send service g m).1 = g := by
            unfold send
            rw [hsrv]
          rw [hstep]
          exact ih

theorem chat_history_invariant_witness :
    alternatingUA ([] : ConversationHistory) = true ∧
    Even ([] : ConversationHistory).length :=
  chat_history_invariant [] Reachable.init
